import Mathlib

/-!
hotkeys4win: the registration core and the key-spec parser.

A shallow embedding of `hotkeys.go`.

* Go strings are modelled as lists of Unicode characters (valid UTF-8 text);
  `len(s)` is the UTF-8 byte length, as in Go.
* The process-wide variables `lastID`, `hotkeyMap`, `isListening`, `threadId`
  become the fields of an explicit `State`; `*Hotkey` pointers are indices
  into a heap of `Hotkey` objects.
* Calls into `user32.dll` are answered by an `Env`; the calls that `Register`
  and `Unregister` issue are recorded in the outcome.
* `int32` arithmetic wraps modulo `2^32`.
-/

deriving instance DecidableEq for Except

namespace hotkeys

/-! ## Constants (hotkeys.go, lines 12-20) -/

def ModAlt : Nat := 1
def ModCtrl : Nat := 2
def ModShift : Nat := 4
def ModWin : Nat := 8

def WM_HOTKEY : Nat := 0x0312
def WM_USER : Nat := 0x0400

/-! ## Go strings -/

/-- A Go string holding valid UTF-8 text, as its sequence of code points. -/
abbrev GoString := List Char

/-- Go `len(s)`: the number of bytes of the UTF-8 encoding of `s`. -/
def len (s : GoString) : Nat := (s.map Char.utf8Size).sum

/-- The ASCII branch of Go `unicode.ToLower`: the letters `A` to `Z` are
shifted by `'a' - 'A'`, every other code point is unchanged. -/
def asciiLower (c : Char) : Char :=
  if 65 ≤ c.toNat ∧ c.toNat ≤ 90 then Char.ofNat (c.toNat + 32) else c

/-- Go `unicode.ToLower` of one code point: ASCII code points take the ASCII
branch, and code points from 128 on go through the Unicode case tables of the
Go runtime, which are the parameter `uni`. -/
def lowerRune (uni : Char → Char) (c : Char) : Char :=
  if c.toNat < 128 then asciiLower c else uni c

/-- Go `strings.ToLower` on valid UTF-8 text: every code point is mapped by
`unicode.ToLower`. -/
def ToLower (uni : Char → Char) (s : GoString) : GoString := s.map (lowerRune uni)

/-- Go `strings.Split(s, sep)` for a separator of one character: the pieces
of `s` between the occurrences of `sep`; `n` separators give `n + 1` pieces,
and the empty string gives one empty piece. -/
def Split (sep : Char) : GoString → List GoString
  | [] => [[]]
  | c :: cs =>
    if c = sep then [] :: Split sep cs
    else (c :: (Split sep cs).headD []) :: (Split sep cs).tail

/-! ## parse (hotkeys.go, lines 107-150) -/

/-- The two errors `parse` builds with `fmt.Errorf`. -/
inductive ParseError where
  /-- The error "only one key allowed". -/
  | onlyOneKeyAllowed
  /-- The error "invalid key: %s" for the given token. -/
  | invalidKey (key : GoString)
  deriving DecidableEq, Repr

/-- The text of a parse error, as `fmt.Errorf` formats it. -/
def ParseError.text : ParseError → GoString
  | .onlyOneKeyAllowed => "only one key allowed".toList
  | .invalidKey key => "invalid key: ".toList ++ key

/-- The byte `key[0]`. The source reads it only where `len(key) == 1`, and
there the single byte is the code point of the single character. -/
def byte0 (key : GoString) : Nat := (key.headD (Char.ofNat 0)).toNat

/-- The `for _, key := range keyList` loop of `parse`, from the given token
list on, with the current values of `modifiers` and `keycode`.
`vkKeyScan b` is the value `int(r1)` of `vkKeyScan.Call(uintptr(b))`. -/
def parseLoop (vkKeyScan : Nat → Int) :
    List GoString → Nat → Int → Except ParseError (Nat × Int)
  | [], modifiers, keycode => .ok (modifiers, keycode)
  | key :: rest, modifiers, keycode =>
    if key = ['a', 'l', 't'] then
      parseLoop vkKeyScan rest (modifiers ||| ModAlt) keycode
    else if key = ['c', 't', 'r', 'l'] then
      parseLoop vkKeyScan rest (modifiers ||| ModCtrl) keycode
    else if key = ['s', 'h', 'i', 'f', 't'] then
      parseLoop vkKeyScan rest (modifiers ||| ModShift) keycode
    else if key = ['w', 'i', 'n'] then
      parseLoop vkKeyScan rest (modifiers ||| ModWin) keycode
    else if keycode ≠ 0 then
      .error .onlyOneKeyAllowed
    else if len key = 1 then
      parseLoop vkKeyScan rest modifiers (vkKeyScan (byte0 key))
    else
      .error (.invalidKey key)

/-- The tokens `parse` iterates over: `strings.Split(strings.ToLower(keys), "+")`. -/
def keyList (uni : Char → Char) (keys : GoString) : List GoString :=
  Split '+' (ToLower uni keys)

/-- The function `parse`: the modifier mask and the keycode, or an error. -/
def parse (uni : Char → Char) (vkKeyScan : Nat → Int) (keys : GoString) :
    Except ParseError (Nat × Int) :=
  parseLoop vkKeyScan (keyList uni keys) 0 0

/-! ## Data model (hotkeys.go, lines 22-50) -/

/-- Go `int32` arithmetic: the value of `x` wrapped into `[-2^31, 2^31)`. -/
def int32 (x : Int) : Int := (x + 2147483648) % 4294967296 - 2147483648

/-- The struct `Hotkey`. A callback is `none` for a nil `func()` and
otherwise a tag that names the function value. -/
structure Hotkey where
  id : Int
  callback : Option Nat
  keycode : Int
  modifiers : Nat
  registered : Bool
  deriving DecidableEq, Repr

/-- The struct `MSG`. -/
structure MSG where
  HWND : Nat
  UINT : Nat
  WPARAM : Int
  LPARAM : Int
  DWORD : Int
  POINT : Int × Int
  deriving DecidableEq, Repr

/-- The contents of a non-nil `map[int32]*Hotkey`, newest binding first. A
`*Hotkey` is the index of the object in the heap of the state. -/
abbrev MapCells := List (Int × Nat)

/-- The binding of key `k` in the cells of a map. -/
def lookup (k : Int) : MapCells → Option Nat
  | [] => none
  | (k', p) :: es => if k' = k then some p else lookup k es

/-- The cells without any binding of key `k`. -/
def remove (k : Int) : MapCells → MapCells
  | [] => []
  | (k', p) :: es => if k' = k then remove k es else (k', p) :: remove k es

/-- Go `m[k]` read on a map that may be nil: a nil map has no binding. -/
def mapIndex (m : Option MapCells) (k : Int) : Option Nat :=
  match m with
  | none => none
  | some es => lookup k es

/-- Go `m[k] = p` on a non-nil map. -/
def mapAssign (es : MapCells) (k : Int) (p : Nat) : MapCells := (k, p) :: remove k es

/-- Go `delete(m, k)`; on a nil map it does nothing. -/
def mapDelete (m : Option MapCells) (k : Int) : Option MapCells :=
  match m with
  | none => none
  | some es => some (remove k es)

/-- The package-level variables that `Register`, `Unregister` and the
listener read and write, and the `Hotkey` objects allocated so far: `heap`
holds, in order of allocation, the objects of the handles that `Register`
has returned. -/
structure State where
  heap : List Hotkey
  lastID : Int
  hotkeyMap : Option MapCells
  isListening : Bool
  threadId : Int
  deriving DecidableEq, Repr

/-- The state at process start: `lastID` is 0, `hotkeyMap` is nil,
`isListening` is false, and `threadId` is what `newWorker` returned. -/
def init (threadId : Int) : State :=
  { heap := [], lastID := 0, hotkeyMap := none, isListening := false, threadId := threadId }

/-- What one call observes of the outside: the Unicode case table of the Go
runtime (for code points from 128 on) and the answers of the `user32.dll`
procedures: `vkKeyScan b` is `int(r1)` of the key lookup of byte `b`, the
other three fields are the `r1` of the call. -/
structure Env where
  unicodeLower : Char → Char
  vkKeyScan : Nat → Int
  registerHotkey : Nat
  unregisterHotkey : Nat
  postThreadMessage : Nat

/-- A call that `Register` or `Unregister` issues to `user32.dll`, with the
source-level values of its arguments. -/
inductive OsCall where
  | registerHotkey (id : Int) (modifiers : Nat) (keycode : Int)
  | unregisterHotkey (id : Int)
  | postThreadMessage (threadId : Int) (msg : Nat)
  deriving DecidableEq, Repr

/-- The outcome of a call: the state after it, the calls to `user32.dll` it
issued, and what it returned. -/
structure Outcome (α : Type) where
  state : State
  calls : List OsCall
  result : α

/-! ## Register (hotkeys.go, lines 193-237) -/

/-- The errors `Register` returns. -/
inductive RegisterError where
  /-- The error of `parse`, returned as it is (line 196). -/
  | parse (e : ParseError)
  /-- The error "error posting message to thread ..." (line 217). -/
  | postFailed
  /-- The error "could not register hotkey ..." (line 227). -/
  | couldNotRegister
  deriving DecidableEq, Repr

/-- The entry `Register` builds (lines 199-204): `id` is `lastID + 1` in
`int32`, `registered` has its zero value. -/
def newHotkey (s : State) (callback : Option Nat) (key : Int) (mods : Nat) : Hotkey :=
  { callback := callback, keycode := key, modifiers := mods,
    id := int32 (s.lastID + 1), registered := false }

/-- The state after the success branch of `Register` (lines 224-234):
`lastID` is the id of the entry, the entry has `registered` set, and it is
stored in the map under its id (the map is made first when it is nil). The
address of the entry is the next free index of the heap. -/
def storeEntry (s : State) (hk : Hotkey) : State :=
  { s with
    lastID := hk.id
    heap := s.heap ++ [{ hk with registered := true }]
    hotkeyMap := some (mapAssign (s.hotkeyMap.getD []) hk.id s.heap.length) }

/-- Lines 221-236 of `Register`: the answer of the worker is read; when it is
not zero the entry is stored and returned, and otherwise the error "could not
register hotkey" is returned and nothing is written. -/
def registerFinish (s : State) (hk : Hotkey) (calls : List OsCall) (os : Env) :
    Outcome (Except RegisterError Nat) :=
  if os.registerHotkey ≠ 0 then
    { state := storeEntry s hk, calls := calls, result := .ok s.heap.length }
  else
    { state := s, calls := calls, result := .error .couldNotRegister }

/-- The function `Register`. The returned pointer is the address of the new
entry. -/
def Register (s : State) (keys : GoString) (callback : Option Nat) (os : Env) :
    Outcome (Except RegisterError Nat) :=
  match parse os.unicodeLower os.vkKeyScan keys with
  | .error e => { state := s, calls := [], result := .error (.parse e) }
  | .ok (mods, key) =>
    let hk := newHotkey s callback key mods
    let call := OsCall.registerHotkey hk.id hk.modifiers hk.keycode
    if s.isListening ∧ s.threadId ≠ 0 then
      if os.postThreadMessage = 0 then
        { state := s, calls := [call, .postThreadMessage s.threadId WM_USER],
          result := .error .postFailed }
      else
        registerFinish s hk [call, .postThreadMessage s.threadId WM_USER] os
    else
      registerFinish s hk [call] os

/-! ## Unregister (hotkeys.go, lines 239-263) -/

/-- What `Unregister` does at its end. -/
inductive UnregisterResult where
  /-- The call returned nil. -/
  | nil
  /-- The error "could not unregister hotkey: ..." (line 259). -/
  | couldNotUnregister
  /-- The argument points to no `Hotkey`: reading `hk.registered` panics. -/
  | invalidPointer
  deriving DecidableEq, Repr

/-- The state after the success branch of `Unregister` (lines 256-257) for
the entry `h` at address `hk`: `registered` is cleared and the binding of the
id of the entry is deleted from the map. -/
def clearEntry (s : State) (hk : Nat) (h : Hotkey) : State :=
  { s with
    heap := s.heap.set hk { h with registered := false }
    hotkeyMap := mapDelete s.hotkeyMap h.id }

/-- The function `Unregister`. -/
def Unregister (s : State) (hk : Nat) (os : Env) : Outcome UnregisterResult :=
  match s.heap[hk]? with
  | none => { state := s, calls := [], result := .invalidPointer }
  | some h =>
    if h.registered then
      let call := OsCall.unregisterHotkey h.id
      let calls :=
        if s.isListening ∧ s.threadId ≠ 0 then
          [call, .postThreadMessage s.threadId WM_USER]
        else [call]
      if os.unregisterHotkey ≠ 0 then
        { state := clearEntry s hk h, calls := calls, result := .nil }
      else
        { state := s, calls := calls, result := .couldNotUnregister }
    else
      { state := s, calls := [], result := .nil }

/-! ## ListenToHotkeys (hotkeys.go, lines 152-191) -/

/-- The part of `ListenToHotkeys` that runs in the caller: the flag is set
(the listener goroutine is started when it was not set before). -/
def ListenToHotkeys (s : State) : State :=
  if s.isListening then s else { s with isListening := true }

/-- One turn of the listener loop on the retrieved message (lines 170-188):
the callback it invokes, or `none` when it goes on to the next message
without invoking one. `int32(msg.WPARAM)` converts an `int32` to itself. -/
def dispatch (s : State) (msg : MSG) : Option Nat :=
  if msg.UINT = WM_USER then none
  else if msg.UINT ≠ WM_HOTKEY then none
  else
    let hotkey := msg.WPARAM
    if hotkey = 0 then none
    else
      match mapIndex s.hotkeyMap hotkey with
      | none => none
      | some p =>
        match s.heap[p]? with
        | none => none
        | some hk => if hk.registered ∧ hk.callback ≠ none then hk.callback else none

/-! ## Sequences of calls -/

/-- One call of the public interface, with what it observes of the outside. -/
inductive Op where
  | register (keys : GoString) (callback : Option Nat) (os : Env)
  | unregister (hk : Nat) (os : Env)
  | listen

/-- The state after one call. -/
def step (s : State) : Op → State
  | .register keys callback os => (Register s keys callback os).state
  | .unregister hk os => (Unregister s hk os).state
  | .listen => ListenToHotkeys s

/-- The state after a sequence of calls. -/
def run (s : State) : List Op → State
  | [] => s
  | op :: ops => run (step s op) ops

/-- The handle one call returns when it is a successful `Register`. -/
def returnedBy (s : State) : Op → List Nat
  | .register keys callback os =>
    match (Register s keys callback os).result with
    | .ok p => [p]
    | .error _ => []
  | _ => []

/-- The handles that the successful `Register` calls of a sequence of calls
return, in call order. -/
def returned (s : State) : List Op → List Nat
  | [] => []
  | op :: ops => returnedBy s op ++ returned (step s op) ops

/-- The id of the object a handle points to. -/
def idOf (s : State) (p : Nat) : Option Int := (s.heap[p]?).map Hotkey.id

/-! ## Vocabulary of the statements about `parse` -/

/-- The four modifiers. -/
inductive Modifier where
  | alt | ctrl | shift | win
  deriving DecidableEq, Repr

/-- The token that names a modifier. -/
def Modifier.token : Modifier → GoString
  | .alt => ['a', 'l', 't']
  | .ctrl => ['c', 't', 'r', 'l']
  | .shift => ['s', 'h', 'i', 'f', 't']
  | .win => ['w', 'i', 'n']

/-- The bit of a modifier. -/
def Modifier.bit : Modifier → Nat
  | .alt => ModAlt
  | .ctrl => ModCtrl
  | .shift => ModShift
  | .win => ModWin

/-- A token is one of `alt`, `ctrl`, `shift`, `win`. -/
def isModifier (t : GoString) : Prop :=
  t = Modifier.alt.token ∨ t = Modifier.ctrl.token ∨ t = Modifier.shift.token
    ∨ t = Modifier.win.token

instance (t : GoString) : Decidable (isModifier t) := by
  unfold isModifier; infer_instance

/-- A token that the loop of `parse` passes without an error and without a
keycode other than 0: a modifier token, or a token of one byte for which the
key lookup answers 0. -/
def passesUnnoticed (vkKeyScan : Nat → Int) (t : GoString) : Prop :=
  isModifier t ∨ (len t = 1 ∧ vkKeyScan (byte0 t) = 0)

instance (vkKeyScan : Nat → Int) (t : GoString) : Decidable (passesUnnoticed vkKeyScan t) := by
  unfold passesUnnoticed; infer_instance

/-- The tokens joined by `+`. -/
def joinPlus : List GoString → GoString
  | [] => []
  | [t] => t
  | t :: u :: rest => t ++ '+' :: joinPlus (u :: rest)

/-- The bitwise OR of the bits of the modifiers that occur in `ms`: it
depends on the set of the members of `ms` only. -/
def orOfBits (ms : List Modifier) : Nat :=
  (if Modifier.alt ∈ ms then ModAlt else 0) ||| (if Modifier.ctrl ∈ ms then ModCtrl else 0)
    ||| (if Modifier.shift ∈ ms then ModShift else 0)
    ||| (if Modifier.win ∈ ms then ModWin else 0)

/-! ## Vocabulary of the statements about the registry -/

/-- The invariant of the registry map: every key that is present is bound
to the address of an entry that has `registered` set and bears that key as
its id. -/
def MapInvariant (s : State) : Prop :=
  ∀ (k : Int) (p : Nat), mapIndex s.hotkeyMap k = some p →
    ∃ h : Hotkey, s.heap[p]? = some h ∧ h.registered = true ∧ h.id = k

/-- The invariant of the ids: `lastID` is the number of entries allocated so
far, and the entry at address `p` bears the id `p + 1`, both in `int32`. -/
def IdInvariant (s : State) : Prop :=
  s.lastID = int32 s.heap.length
    ∧ ∀ (p : Nat) (h : Hotkey), s.heap[p]? = some h → h.id = int32 ((p : Int) + 1)

/-- An environment in which every `user32.dll` call succeeds: the key lookup
answers 65 and the other calls answer 1. -/
def osOk : Env :=
  { unicodeLower := id, vkKeyScan := fun _ => 65, registerHotkey := 1,
    unregisterHotkey := 1, postThreadMessage := 1 }

/-- An environment in which `RegisterHotKey` fails (answers 0). -/
def osRegisterFails : Env := { osOk with registerHotkey := 0 }

/-- An environment in which `UnregisterHotKey` fails (answers 0). -/
def osUnregisterFails : Env := { osOk with unregisterHotkey := 0 }

/-- An environment in which `PostThreadMessageW` fails (answers 0). -/
def osPostFails : Env := { osOk with postThreadMessage := 0 }

/-- The sequence of `n` calls `Register("a", nil)` that all succeed. -/
def registerTimes : Nat → List Op
  | 0 => []
  | n + 1 => Op.register ['a'] none osOk :: registerTimes n

/-- A message with the given code and `WPARAM`, the other fields zero. -/
def message (code : Nat) (wparam : Int) : MSG :=
  { HWND := 0, UINT := code, WPARAM := wparam, LPARAM := 0, DWORD := 0, POINT := (0, 0) }

/-- The state after `ListenToHotkeys()` and a successful
`Register("ctrl+a", f7)` in a process whose worker thread has id 5. -/
def oneHotkey : State :=
  run (init 5) [.listen, .register "ctrl+a".toList (some 7) osOk]

/-- The state a listener can observe while an `Unregister` of the only entry
is in flight: `registered` is cleared already (line 256) and the binding is
not deleted yet (line 257). -/
def midUnregister : State :=
  { heap := [{ id := 1, callback := some 7, keycode := 65, modifiers := 2,
               registered := false }],
    lastID := 1, hotkeyMap := some [(1, 0)], isListening := true, threadId := 5 }

/-! ## Lemmas: the loop of `parse` -/

theorem isModifier_token (m : Modifier) : isModifier m.token := by
  cases m <;> simp [isModifier]

theorem not_isModifier {t : GoString} (h : ¬ isModifier t) :
    t ≠ ['a', 'l', 't'] ∧ t ≠ ['c', 't', 'r', 'l'] ∧ t ≠ ['s', 'h', 'i', 'f', 't']
      ∧ t ≠ ['w', 'i', 'n'] := by
  simp only [isModifier, Modifier.token, not_or] at h
  exact h

theorem isModifier_iff {t : GoString} : isModifier t ↔ ∃ m : Modifier, t = m.token := by
  constructor
  · rintro (h | h | h | h)
    exacts [⟨.alt, h⟩, ⟨.ctrl, h⟩, ⟨.shift, h⟩, ⟨.win, h⟩]
  · rintro ⟨m, rfl⟩
    exact isModifier_token m

theorem parseLoop_modifier (vk : Nat → Int) (m : Modifier) (rest : List GoString)
    (mods : Nat) (kc : Int) :
    parseLoop vk (m.token :: rest) mods kc = parseLoop vk rest (mods ||| m.bit) kc := by
  cases m <;> simp [parseLoop, Modifier.token, Modifier.bit]

theorem parseLoop_key (vk : Nat → Int) (t : GoString) (rest : List GoString)
    (mods : Nat) (hmod : ¬ isModifier t) (hlen : len t = 1) :
    parseLoop vk (t :: rest) mods 0 = parseLoop vk rest mods (vk (byte0 t)) := by
  obtain ⟨h1, h2, h3, h4⟩ := not_isModifier hmod
  simp [parseLoop, h1, h2, h3, h4, hlen]

theorem parseLoop_invalid (vk : Nat → Int) (t : GoString) (rest : List GoString)
    (mods : Nat) (hmod : ¬ isModifier t) (hlen : len t ≠ 1) :
    parseLoop vk (t :: rest) mods 0 = .error (.invalidKey t) := by
  obtain ⟨h1, h2, h3, h4⟩ := not_isModifier hmod
  simp [parseLoop, h1, h2, h3, h4, hlen]

theorem parseLoop_second (vk : Nat → Int) (t : GoString) (rest : List GoString)
    (mods : Nat) (kc : Int) (hmod : ¬ isModifier t) (hkc : kc ≠ 0) :
    parseLoop vk (t :: rest) mods kc = .error .onlyOneKeyAllowed := by
  obtain ⟨h1, h2, h3, h4⟩ := not_isModifier hmod
  simp [parseLoop, h1, h2, h3, h4, hkc]

/-- Tokens that pass unnoticed leave the keycode at 0. -/
theorem parseLoop_unnoticed (vk : Nat → Int) (rest : List GoString) :
    ∀ (pre : List GoString) (mods : Nat), (∀ t ∈ pre, passesUnnoticed vk t) →
      ∃ mods', parseLoop vk (pre ++ rest) mods 0 = parseLoop vk rest mods' 0 := by
  intro pre
  induction pre with
  | nil => intro mods _; exact ⟨mods, rfl⟩
  | cons t pre ih =>
    intro mods h
    have ht := h t (List.mem_cons_self _ _)
    have hpre : ∀ u ∈ pre, passesUnnoticed vk u := fun u hu => h u (List.mem_cons_of_mem _ hu)
    by_cases hmod : isModifier t
    · obtain ⟨m, rfl⟩ := isModifier_iff.mp hmod
      obtain ⟨mods', hm⟩ := ih (mods ||| m.bit) hpre
      exact ⟨mods', by rw [List.cons_append, parseLoop_modifier, hm]⟩
    · rcases ht with ht | ⟨hlen, hvk⟩
      · exact absurd ht hmod
      · obtain ⟨mods', hm⟩ := ih mods hpre
        exact ⟨mods', by rw [List.cons_append, parseLoop_key vk t _ mods hmod hlen, hvk, hm]⟩

/-- Modifier tokens leave the keycode as it is. -/
theorem parseLoop_modifiers (vk : Nat → Int) (rest : List GoString) (kc : Int) :
    ∀ (ms : List Modifier) (mods : Nat),
      parseLoop vk (ms.map Modifier.token ++ rest) mods kc
        = parseLoop vk rest (ms.foldl (fun acc m => acc ||| m.bit) mods) kc := by
  intro ms
  induction ms with
  | nil => intro mods; rfl
  | cons m ms ih =>
    intro mods
    rw [List.map_cons, List.cons_append, parseLoop_modifier, ih, List.foldl_cons]

/-- After a key with a keycode other than 0, a later token that is not a
modifier ends the loop with "only one key allowed". -/
theorem parseLoop_tooMany (vk : Nat → Int) (kc : Int) (hkc : kc ≠ 0) :
    ∀ (rest : List GoString) (mods : Nat), (∃ t ∈ rest, ¬ isModifier t) →
      parseLoop vk rest mods kc = .error .onlyOneKeyAllowed := by
  intro rest
  induction rest with
  | nil => intro mods h; obtain ⟨t, ht, _⟩ := h; cases ht
  | cons u rest ih =>
    intro mods h
    by_cases hu : isModifier u
    · obtain ⟨m, rfl⟩ := isModifier_iff.mp hu
      rw [parseLoop_modifier]
      apply ih
      obtain ⟨t, ht, hnot⟩ := h
      rcases List.mem_cons.mp ht with rfl | ht'
      · exact absurd hu hnot
      · exact ⟨t, ht', hnot⟩
    · exact parseLoop_second vk u rest mods kc hu hkc

/-! ## Theorems: `parse` -/

/-- C7 (amended): when the token list of the input (lower-cased and split on
`+`) holds a multi-character token that is not a modifier token, and every
token before it is a modifier token or a one-byte key for which the key
lookup answered 0, `parse` fails with the error "invalid key: ..." for that
token. -/
theorem parse_invalidKey (uni : Char → Char) (vk : Nat → Int) (keys : GoString)
    (pre post : List GoString) (t : GoString)
    (hsplit : keyList uni keys = pre ++ t :: post)
    (hpre : ∀ u ∈ pre, passesUnnoticed vk u)
    (hmod : ¬ isModifier t) (hlen : 1 < len t) :
    parse uni vk keys = .error (.invalidKey t) := by
  unfold parse
  rw [hsplit]
  obtain ⟨mods', hm⟩ := parseLoop_unnoticed vk (t :: post) pre 0 hpre
  rw [hm]
  exact parseLoop_invalid vk t post mods' hmod (by omega)

/-- Witness of C7 (amended): the input "ctrl+ab". -/
theorem parse_invalidKey_witness :
    parse id (fun _ => 65) "ctrl+ab".toList = .error (.invalidKey ['a', 'b']) :=
  parse_invalidKey id (fun _ => 65) "ctrl+ab".toList [['c', 't', 'r', 'l']] []
    ['a', 'b'] (by decide) (by decide) (by decide) (by decide)

/-- Counterexample to C7 as stated: the input "a+bc" holds the multi-character
token "bc", which is not a modifier token, and with a key lookup that answers
65 for the key "a", `parse` fails with "only one key allowed", not with
"invalid key: ...". -/
theorem parse_invalidKey_counterexample :
    keyList id "a+bc".toList = [['a'], ['b', 'c']]
      ∧ ¬ isModifier ['b', 'c'] ∧ 1 < len ['b', 'c']
      ∧ parse id (fun _ => 65) "a+bc".toList = .error .onlyOneKeyAllowed := by
  decide

/-- C8 (amended): when the token list of the input (lower-cased and split on
`+`) holds a one-byte token that is not a modifier token and for which the key
lookup answered a keycode other than 0, every token before it is a modifier
token or a one-byte key for which the lookup answered 0, and some later token
is not a modifier token, `parse` fails with the error "only one key allowed". -/
theorem parse_onlyOneKey (uni : Char → Char) (vk : Nat → Int) (keys : GoString)
    (pre rest : List GoString) (k : GoString)
    (hsplit : keyList uni keys = pre ++ k :: rest)
    (hpre : ∀ u ∈ pre, passesUnnoticed vk u)
    (hk : ¬ isModifier k) (hlen : len k = 1) (hvk : vk (byte0 k) ≠ 0)
    (hsecond : ∃ t ∈ rest, ¬ isModifier t) :
    parse uni vk keys = .error .onlyOneKeyAllowed := by
  unfold parse
  rw [hsplit]
  obtain ⟨mods', hm⟩ := parseLoop_unnoticed vk (k :: rest) pre 0 hpre
  rw [hm, parseLoop_key vk k rest mods' hk hlen]
  exact parseLoop_tooMany vk _ hvk rest mods' hsecond

/-- Witness of C8 (amended): the input "ctrl+a+b" with a key lookup that
answers 65. -/
theorem parse_onlyOneKey_witness :
    parse id (fun _ => 65) "ctrl+a+b".toList = .error .onlyOneKeyAllowed :=
  parse_onlyOneKey id (fun _ => 65) "ctrl+a+b".toList [['c', 't', 'r', 'l']] [['b']]
    ['a'] (by decide) (by decide) (by decide) (by decide) (by decide) (by decide)

/-- Counterexample to C8 as stated: "ctrl+a+b" has the two non-modifier tokens
"a" and "b", and when the key lookup answers 0 for "a" (and 66 for "b"),
`parse` succeeds with keycode 66; and "ab+c" has the two non-modifier tokens
"ab" and "c", and `parse` fails with "invalid key: ab". -/
theorem parse_onlyOneKey_counterexample :
    (keyList id "ctrl+a+b".toList = [['c', 't', 'r', 'l'], ['a'], ['b']]
      ∧ parse id (fun b => if b = 97 then 0 else 66) "ctrl+a+b".toList = .ok (ModCtrl, 66))
    ∧ (keyList id "ab+c".toList = [['a', 'b'], ['c']]
      ∧ parse id (fun _ => 65) "ab+c".toList = .error (.invalidKey ['a', 'b'])) := by
  decide

/-! ## Lemmas: lower-casing, splitting and joining -/

set_option maxRecDepth 100000 in
theorem asciiLower_table : ∀ n < 128, (asciiLower (Char.ofNat n)).toNat < 128
    ∧ (Char.ofNat n ≠ '+' → asciiLower (Char.ofNat n) ≠ '+') := by
  decide

theorem lowerRune_ascii (uni : Char → Char) (c : Char) (h : c.toNat < 128) :
    (lowerRune uni c).toNat < 128 ∧ (c ≠ '+' → lowerRune uni c ≠ '+') := by
  have := asciiLower_table c.toNat h
  rw [Char.ofNat_toNat] at this
  simpa [lowerRune, h] using this

theorem utf8Size_ascii (d : Char) (h : d.toNat < 128) : d.utf8Size = 1 := by
  unfold Char.utf8Size
  have : d.val ≤ 127 := by
    show d.val.toNat ≤ 127
    have : d.val.toNat = d.toNat := rfl
    omega
  simp [this]

theorem Split_not_mem (sep : Char) : ∀ t : GoString, sep ∉ t → Split sep t = [t]
  | [], _ => rfl
  | c :: cs, h => by
    have hc : c ≠ sep := fun e => h (e ▸ List.mem_cons_self _ _)
    have hcs : sep ∉ cs := fun e => h (List.mem_cons_of_mem _ e)
    simp [Split, hc, Split_not_mem sep cs hcs]

theorem Split_append (sep : Char) (rest : GoString) :
    ∀ t : GoString, sep ∉ t → Split sep (t ++ sep :: rest) = t :: Split sep rest
  | [], _ => by simp [Split]
  | c :: cs, h => by
    have hc : c ≠ sep := fun e => h (e ▸ List.mem_cons_self _ _)
    have hcs : sep ∉ cs := fun e => h (List.mem_cons_of_mem _ e)
    simp [Split, hc, Split_append sep rest cs hcs]

theorem Split_joinPlus :
    ∀ ts : List GoString, ts ≠ [] → (∀ t ∈ ts, '+' ∉ t) → Split '+' (joinPlus ts) = ts
  | [], h, _ => absurd rfl h
  | [t], _, h => Split_not_mem '+' t (h t (List.mem_cons_self _ _))
  | t :: u :: rest, _, h => by
    rw [joinPlus, Split_append '+' _ t (h t (List.mem_cons_self _ _)),
      Split_joinPlus (u :: rest) (List.cons_ne_nil _ _)
        (fun v hv => h v (List.mem_cons_of_mem _ hv))]

theorem ToLower_joinPlus (uni : Char → Char) :
    ∀ ts : List GoString, ToLower uni (joinPlus ts) = joinPlus (ts.map (ToLower uni))
  | [] => rfl
  | [_] => rfl
  | t :: u :: rest => by
    have ih := ToLower_joinPlus uni (u :: rest)
    have hplus : lowerRune uni '+' = '+' := rfl
    simp only [ToLower, joinPlus, List.map_append, List.map_cons] at ih ⊢
    rw [ih, hplus]

theorem ToLower_token (uni : Char → Char) (m : Modifier) : ToLower uni m.token = m.token := by
  cases m <;> rfl

theorem plus_not_mem_token (m : Modifier) : '+' ∉ m.token := by
  cases m <;> decide

/-- The fold of the modifier bits into an accumulator is the OR of the
accumulator and the bits of the set of modifiers. -/
theorem foldl_bits : ∀ (ms : List Modifier) (acc : Nat),
    ms.foldl (fun acc m => acc ||| m.bit) acc = acc ||| orOfBits ms := by
  intro ms
  induction ms with
  | nil => intro acc; simp [orOfBits]
  | cons m ms ih =>
    intro acc
    rw [List.foldl_cons, ih, Nat.lor_assoc]
    congr 1
    unfold orOfBits
    by_cases h1 : Modifier.alt ∈ ms <;> by_cases h2 : Modifier.ctrl ∈ ms <;>
      by_cases h3 : Modifier.shift ∈ ms <;> by_cases h4 : Modifier.win ∈ ms <;>
      cases m <;> simp [h1, h2, h3, h4, Modifier.bit] <;> decide

/-- C6 (amended): for every list of modifier tokens before and after one key
token that is a single ASCII character other than `+` (every subset of alt,
ctrl, shift, win, in every order, with repetitions, the key at every
position), `parse` of the `+`-joined string succeeds, and the modifier mask is
exactly the OR of the bits of the modifiers that occur, whatever their order
and number; the keycode is the answer of the key lookup for the lower-cased
key. -/
theorem parse_modifier_mask (uni : Char → Char) (vk : Nat → Int)
    (before after : List Modifier) (c : Char) (hascii : c.toNat < 128) (hplus : c ≠ '+') :
    parse uni vk (joinPlus (before.map Modifier.token ++ [c] :: after.map Modifier.token))
      = .ok (orOfBits (before ++ after), vk (lowerRune uni c).toNat) := by
  obtain ⟨hk128, hkplus⟩ := lowerRune_ascii uni c hascii
  have hkplus := hkplus hplus
  have hlower : (before.map Modifier.token ++ [c] :: after.map Modifier.token).map (ToLower uni)
      = before.map Modifier.token ++ [lowerRune uni c] :: after.map Modifier.token := by
    have hfun : (ToLower uni ∘ Modifier.token) = Modifier.token :=
      funext (ToLower_token uni)
    simp [List.map_append, hfun, ToLower]
  have hsplit : keyList uni
      (joinPlus (before.map Modifier.token ++ [c] :: after.map Modifier.token))
      = before.map Modifier.token ++ [lowerRune uni c] :: after.map Modifier.token := by
    unfold keyList
    rw [ToLower_joinPlus, hlower]
    apply Split_joinPlus
    · simp
    · intro t ht
      rcases List.mem_append.mp ht with ht | ht
      · obtain ⟨m, _, rfl⟩ := List.mem_map.mp ht
        exact plus_not_mem_token m
      · rcases List.mem_cons.mp ht with rfl | ht
        · simpa using hkplus.symm
        · obtain ⟨m, _, rfl⟩ := List.mem_map.mp ht
          exact plus_not_mem_token m
  have hnotmod : ¬ isModifier [lowerRune uni c] := by
    simp [isModifier, Modifier.token]
  have hlen : len [lowerRune uni c] = 1 := by
    simp [len, utf8Size_ascii _ hk128]
  unfold parse
  rw [hsplit, parseLoop_modifiers, parseLoop_key vk _ _ _ hnotmod hlen]
  have := parseLoop_modifiers vk [] (vk (byte0 [lowerRune uni c])) after
    (before.foldl (fun acc m => acc ||| m.bit) 0)
  rw [List.append_nil] at this
  rw [this, ← List.foldl_append, foldl_bits, Nat.zero_or]
  rfl

/-- Witness of C6 (amended): the input "shift+ctrl+z+shift+alt" gives the
mask 7 and the keycode the lookup answers for "z". -/
theorem parse_modifier_mask_witness :
    parse id (fun _ => 90) "shift+ctrl+z+shift+alt".toList = .ok (7, 90) :=
  parse_modifier_mask id (fun _ => 90) [.shift, .ctrl] [.shift, .alt] 'z'
    (by decide) (by decide)

/-- Counterexample to C6 as stated: with the single-character key token "+"
the joined string is "ctrl++", and with the single-character key token "é"
(two bytes in UTF-8, lower-case already) it is "ctrl+é"; `parse` fails on
both with "invalid key: ...". -/
theorem parse_modifier_mask_counterexample :
    (joinPlus [Modifier.ctrl.token, ['+']] = "ctrl++".toList
      ∧ parse id (fun _ => 65) "ctrl++".toList = .error (.invalidKey []))
    ∧ (joinPlus [Modifier.ctrl.token, ['é']] = "ctrl+é".toList
      ∧ parse id (fun _ => 65) "ctrl+é".toList = .error (.invalidKey ['é'])) := by
  decide

/-! ## Lemmas: `int32` and the map -/

theorem int32_of_range (x : Int) (h1 : -2147483648 ≤ x) (h2 : x < 2147483648) :
    int32 x = x := by
  unfold int32; omega

theorem int32_succ (x : Int) : int32 (int32 x + 1) = int32 (x + 1) := by
  unfold int32; omega

theorem lookup_remove_self (k : Int) : ∀ es : MapCells, lookup k (remove k es) = none
  | [] => rfl
  | (k', p) :: es => by
    by_cases h : k' = k
    · simp [remove, h, lookup_remove_self k es]
    · simp [remove, lookup, h, lookup_remove_self k es]

theorem lookup_remove_ne (k k' : Int) (hne : k' ≠ k) :
    ∀ es : MapCells, lookup k (remove k' es) = lookup k es
  | [] => rfl
  | (k'', p) :: es => by
    by_cases h : k'' = k'
    · have h2 : k'' ≠ k := by rw [h]; exact hne
      simp [remove, lookup, h, hne, lookup_remove_ne k k' hne es]
    · by_cases h3 : k'' = k
      · subst h3
        simp [remove, lookup, h]
      · simp [remove, lookup, h, h3, lookup_remove_ne k k' hne es]

theorem mapIndex_assign (m : Option MapCells) (k k' : Int) (p : Nat) :
    mapIndex (some (mapAssign (m.getD []) k p)) k'
      = if k = k' then some p else mapIndex m k' := by
  by_cases h : k = k'
  · simp [mapIndex, mapAssign, lookup, h]
  · cases m with
    | none => simp [mapIndex, mapAssign, lookup, remove, h]
    | some es => simp [mapIndex, mapAssign, lookup, h, lookup_remove_ne k' k h es]

theorem mapIndex_delete (m : Option MapCells) (k k' : Int) :
    mapIndex (mapDelete m k) k' = if k = k' then none else mapIndex m k' := by
  cases m with
  | none => simp [mapIndex, mapDelete]
  | some es =>
    by_cases h : k = k'
    · simp [mapIndex, mapDelete, h, lookup_remove_self]
    · simp [mapIndex, mapDelete, h, lookup_remove_ne k' k h es]

/-! ## Lemmas: the branches of `Register` and `Unregister` -/

/-- A call of `Register` either returns an error and writes nothing, or it
stores the entry it built and returns the address of that entry. -/
theorem Register_cases (s : State) (keys : GoString) (callback : Option Nat) (os : Env) :
    ((Register s keys callback os).state = s
        ∧ ∃ e, (Register s keys callback os).result = .error e)
      ∨ ∃ mods key, parse os.unicodeLower os.vkKeyScan keys = .ok (mods, key)
        ∧ os.registerHotkey ≠ 0
        ∧ (Register s keys callback os).state = storeEntry s (newHotkey s callback key mods)
        ∧ (Register s keys callback os).result = .ok s.heap.length := by
  unfold Register
  cases hp : parse os.unicodeLower os.vkKeyScan keys with
  | error e => exact Or.inl ⟨rfl, _, rfl⟩
  | ok v =>
    obtain ⟨mods, key⟩ := v
    by_cases hreg : os.registerHotkey = 0
    · left
      by_cases hl : s.isListening = true ∧ s.threadId ≠ 0 <;>
        by_cases hpost : os.postThreadMessage = 0 <;>
        simp [registerFinish, hreg, hl, hpost]
    · by_cases hl : s.isListening = true ∧ s.threadId ≠ 0
      · by_cases hpost : os.postThreadMessage = 0
        · left; simp [hl, hpost]
        · right; exact ⟨mods, key, rfl, hreg, by simp [registerFinish, hreg, hl, hpost]⟩
      · right; exact ⟨mods, key, rfl, hreg, by simp [registerFinish, hreg, hl]⟩

/-- A call of `Unregister` either writes nothing, or it is the success
branch on an entry that had `registered` set. -/
theorem Unregister_cases (s : State) (hk : Nat) (os : Env) :
    (Unregister s hk os).state = s
      ∨ ∃ h, s.heap[hk]? = some h ∧ h.registered = true ∧ os.unregisterHotkey ≠ 0
        ∧ (Unregister s hk os).state = clearEntry s hk h
        ∧ (Unregister s hk os).result = .nil := by
  unfold Unregister
  cases hh : s.heap[hk]? with
  | none => exact Or.inl rfl
  | some h =>
    by_cases hreg : h.registered = true
    · by_cases hos : os.unregisterHotkey = 0
      · left; simp [hreg, hos]
      · right; exact ⟨h, rfl, hreg, hos, by simp [hreg, hos], by simp [hreg, hos]⟩
    · left; simp [hreg]

/-- A property of states that the two success branches and the setting of
the listening flag preserve is preserved by every call. -/
theorem step_preserves (P : State → Prop)
    (hstore : ∀ s callback key mods, P s → P (storeEntry s (newHotkey s callback key mods)))
    (hclear : ∀ s hk h, P s → s.heap[hk]? = some h → h.registered = true →
      P (clearEntry s hk h))
    (hlisten : ∀ s, P s → P { s with isListening := true }) :
    ∀ s op, P s → P (step s op) := by
  intro s op hP
  cases op with
  | register keys callback os =>
    rcases Register_cases s keys callback os with ⟨h, _⟩ | ⟨mods, key, _, _, h, _⟩
    · simpa [step, h] using hP
    · simpa [step, h] using hstore s callback key mods hP
  | unregister hk os =>
    rcases Unregister_cases s hk os with h | ⟨e, he, hreg, _, h, _⟩
    · simpa [step, h] using hP
    · simpa [step, h] using hclear s hk e hP he hreg
  | listen =>
    show P (ListenToHotkeys s)
    unfold ListenToHotkeys
    split
    · exact hP
    · exact hlisten s hP

theorem run_preserves (P : State → Prop) (hstep : ∀ s op, P s → P (step s op)) :
    ∀ ops s, P s → P (run s ops)
  | [], _, h => h
  | op :: ops, s, h => run_preserves P hstep ops (step s op) (hstep s op h)

/-! ## Lemmas: the invariants -/

theorem MapInvariant_init (threadId : Int) : MapInvariant (init threadId) := by
  intro k p h
  simp [init, mapIndex] at h

theorem MapInvariant_step (s : State) (op : Op) (hs : MapInvariant s) :
    MapInvariant (step s op) := by
  refine step_preserves MapInvariant ?_ ?_ ?_ s op hs
  · intro s callback key mods hs k p hk
    simp only [storeEntry] at hk ⊢
    rw [mapIndex_assign] at hk
    by_cases hid : (newHotkey s callback key mods).id = k
    · rw [if_pos hid] at hk
      cases hk
      exact ⟨_, List.getElem?_concat_length _ _, rfl, hid⟩
    · rw [if_neg hid] at hk
      obtain ⟨h, hh, hreg, hkid⟩ := hs k p hk
      have hlt : p < s.heap.length := (List.getElem?_eq_some_iff.mp hh).1
      exact ⟨h, by rw [List.getElem?_append_left hlt]; exact hh, hreg, hkid⟩
  · intro s q e hs he _ k p hk
    simp only [clearEntry] at hk ⊢
    rw [mapIndex_delete] at hk
    by_cases hid : e.id = k
    · rw [if_pos hid] at hk; cases hk
    · rw [if_neg hid] at hk
      obtain ⟨h, hh, hreg, hkid⟩ := hs k p hk
      have hpq : q ≠ p := by
        rintro rfl
        rw [he] at hh
        cases hh
        exact hid hkid
      exact ⟨h, by rw [List.getElem?_set_ne hpq]; exact hh, hreg, hkid⟩
  · intro s hs
    exact hs

theorem MapInvariant_run (threadId : Int) (ops : List Op) :
    MapInvariant (run (init threadId) ops) :=
  run_preserves MapInvariant MapInvariant_step ops _ (MapInvariant_init threadId)

theorem IdInvariant_init (threadId : Int) : IdInvariant (init threadId) := by
  refine ⟨by simp [init, int32], ?_⟩
  intro p h hh
  simp [init] at hh

theorem IdInvariant_step (s : State) (op : Op) (hs : IdInvariant s) :
    IdInvariant (step s op) := by
  refine step_preserves IdInvariant ?_ ?_ ?_ s op hs
  · intro s callback key mods ⟨hlast, hids⟩
    have hnew : (newHotkey s callback key mods).id = int32 ((s.heap.length : Int) + 1) := by
      simp only [newHotkey]
      rw [hlast, int32_succ]
    refine ⟨?_, ?_⟩
    · simp only [storeEntry, List.length_append, List.length_singleton]
      rw [hnew]; push_cast; rfl
    · intro p h hh
      simp only [storeEntry] at hh
      by_cases hlt : p < s.heap.length
      · rw [List.getElem?_append_left hlt] at hh
        exact hids p h hh
      · have hle := (List.getElem?_eq_some_iff.mp hh).1
        simp only [List.length_append, List.length_cons, List.length_nil] at hle
        have hp : p = s.heap.length := by omega
        subst hp
        rw [List.getElem?_concat_length] at hh
        cases hh
        exact hnew
  · intro s q e ⟨hlast, hids⟩ he _
    refine ⟨?_, ?_⟩
    · simp only [clearEntry, List.length_set]
      exact hlast
    · intro p h hh
      simp only [clearEntry] at hh
      by_cases hpq : q = p
      · subst hpq
        rw [List.getElem?_set_self (List.getElem?_eq_some_iff.mp he).1] at hh
        cases hh
        exact hids q e he
      · rw [List.getElem?_set_ne hpq] at hh
        exact hids p h hh
  · intro s hs
    exact hs

theorem IdInvariant_run (threadId : Int) (ops : List Op) :
    IdInvariant (run (init threadId) ops) :=
  run_preserves IdInvariant IdInvariant_step ops _ (IdInvariant_init threadId)

/-- A call either returns no handle and leaves the number of entries as it
is, or it returns the next free address and allocates one entry. -/
theorem step_returned (s : State) (op : Op) :
    (returnedBy s op = [] ∧ (step s op).heap.length = s.heap.length)
      ∨ (returnedBy s op = [s.heap.length]
        ∧ (step s op).heap.length = s.heap.length + 1) := by
  cases op with
  | register keys callback os =>
    rcases Register_cases s keys callback os with ⟨h, e, he⟩ | ⟨mods, key, _, _, h, hr⟩
    · left; simp [returnedBy, step, h, he]
    · right; simp [returnedBy, step, h, hr, storeEntry]
  | unregister hk os =>
    left
    rcases Unregister_cases s hk os with h | ⟨e, _, _, _, h, _⟩
    · simp [returnedBy, step, h]
    · simp [returnedBy, step, h, clearEntry]
  | listen =>
    left
    refine ⟨rfl, ?_⟩
    show (ListenToHotkeys s).heap.length = s.heap.length
    unfold ListenToHotkeys
    split <;> rfl

/-- The handles returned in a sequence of calls are the addresses of the
entries allocated in it, in order. -/
theorem returned_eq_range : ∀ (ops : List Op) (s : State),
    s.heap.length ≤ (run s ops).heap.length
      ∧ returned s ops
        = List.range' s.heap.length ((run s ops).heap.length - s.heap.length)
  | [], s => by simp [run, returned]
  | op :: ops, s => by
    obtain ⟨hle, hret⟩ := returned_eq_range ops (step s op)
    simp only [run, returned]
    rcases step_returned s op with ⟨h1, h2⟩ | ⟨h1, h2⟩
    · rw [h2] at hle hret
      exact ⟨hle, by rw [h1, hret]; rfl⟩
    · rw [h2] at hle hret
      refine ⟨by omega, ?_⟩
      rw [h1, hret]
      have : (run (step s op) ops).heap.length - s.heap.length
          = ((run (step s op) ops).heap.length - (s.heap.length + 1)) + 1 := by omega
      rw [this, List.range'_succ]
      rfl

theorem mem_returned_init (threadId : Int) (ops : List Op) (q : Nat) :
    q ∈ returned (init threadId) ops ↔ q < (run (init threadId) ops).heap.length := by
  rw [(returned_eq_range ops (init threadId)).2]
  simp [init]

theorem length_returned_init (threadId : Int) (ops : List Op) :
    (returned (init threadId) ops).length = (run (init threadId) ops).heap.length := by
  rw [(returned_eq_range ops (init threadId)).2]
  simp [init]

/-- An entry that has `registered` cleared keeps it cleared in every call. -/
theorem unregistered_step (hk : Nat) (s : State) (op : Op)
    (hs : ∃ h : Hotkey, s.heap[hk]? = some h ∧ h.registered = false) :
    ∃ h : Hotkey, (step s op).heap[hk]? = some h ∧ h.registered = false := by
  refine step_preserves
    (fun s => ∃ h : Hotkey, s.heap[hk]? = some h ∧ h.registered = false) ?_ ?_ ?_ s op hs
  · rintro s callback key mods ⟨h, hh, hreg⟩
    have hlt : hk < s.heap.length := (List.getElem?_eq_some_iff.mp hh).1
    exact ⟨h, by simp only [storeEntry]; rw [List.getElem?_append_left hlt]; exact hh, hreg⟩
  · rintro s q e ⟨h, hh, hreg⟩ he hereg
    have hq : q ≠ hk := by
      rintro rfl
      rw [he] at hh
      cases hh
      rw [hereg] at hreg
      cases hreg
    exact ⟨h, by simp only [clearEntry]; rw [List.getElem?_set_ne hq]; exact hh, hreg⟩
  · intro s hs
    exact hs

/-- After an `Unregister` that returned nil the entry has `registered`
cleared. -/
theorem Unregister_nil (s : State) (hk : Nat) (os : Env)
    (hnil : (Unregister s hk os).result = .nil) :
    ∃ h : Hotkey, (Unregister s hk os).state.heap[hk]? = some h ∧ h.registered = false := by
  unfold Unregister at hnil ⊢
  cases hh : s.heap[hk]? with
  | none => simp [hh] at hnil
  | some h =>
    have hlt : hk < s.heap.length := (List.getElem?_eq_some_iff.mp hh).1
    by_cases hreg : h.registered = true
    · by_cases hos : os.unregisterHotkey = 0
      · simp [hh, hreg, hos] at hnil
      · simp [hreg, hos, clearEntry, List.getElem?_set_self hlt]
    · simp only [hreg]
      exact ⟨h, hh, by simpa using hreg⟩

/-- The call `Register("a", nil)` in the environment `osOk` stores its entry. -/
theorem Register_osOk (s : State) :
    (Register s ['a'] none osOk).state = storeEntry s (newHotkey s none 65 0)
      ∧ (Register s ['a'] none osOk).result = .ok s.heap.length := by
  have hp : parse osOk.unicodeLower osOk.vkKeyScan ['a'] = .ok (0, 65) := by decide
  unfold Register
  rw [hp]
  by_cases hl : s.isListening = true ∧ s.threadId ≠ 0 <;>
    simp [registerFinish, osOk, hl]

theorem idOf_storeEntry (s : State) (hk : Hotkey) :
    idOf (storeEntry s hk) s.heap.length = some hk.id := by
  simp [idOf, storeEntry]

theorem registerTimes_length : ∀ (n : Nat) (s : State),
    (run s (registerTimes n)).heap.length = s.heap.length + n
  | 0, _ => rfl
  | n + 1, s => by
    show (run (Register s ['a'] none osOk).state (registerTimes n)).heap.length = _
    rw [registerTimes_length n, (Register_osOk s).1]
    simp only [storeEntry, List.length_append, List.length_cons, List.length_nil]
    omega

/-! ## Theorems: `Register` and `Unregister` -/

/-- C1 (amended): in every sequence of calls from process start, whatever the
`user32.dll` calls answer, a successful `Register` call that comes after
fewer than 2147483647 successful `Register` calls returns a handle whose
entry has `registered` set and whose id is strictly greater than the id of
every handle that an earlier `Register` call returned. -/
theorem register_id_increasing (threadId : Int) (ops : List Op) (keys : GoString)
    (callback : Option Nat) (os : Env) (p : Nat)
    (hcount : (returned (init threadId) ops).length < 2147483647)
    (hok : (Register (run (init threadId) ops) keys callback os).result = .ok p) :
    ∃ h : Hotkey,
      (Register (run (init threadId) ops) keys callback os).state.heap[p]? = some h
        ∧ h.registered = true
        ∧ ∀ q ∈ returned (init threadId) ops,
            ∃ h' : Hotkey, (run (init threadId) ops).heap[q]? = some h' ∧ h'.id < h.id := by
  obtain ⟨hlast, hids⟩ := IdInvariant_run threadId ops
  rw [length_returned_init] at hcount
  rcases Register_cases (run (init threadId) ops) keys callback os with
    ⟨_, e, he⟩ | ⟨mods, key, _, _, hstate, hres⟩
  · rw [he] at hok; cases hok
  · rw [hres] at hok
    cases hok
    have hnew : (newHotkey (run (init threadId) ops) callback key mods).id
        = ((run (init threadId) ops).heap.length : Int) + 1 := by
      simp only [newHotkey]
      rw [hlast, int32_succ]
      exact int32_of_range _ (by omega) (by omega)
    refine ⟨_, by rw [hstate]; exact List.getElem?_concat_length _ _, rfl, ?_⟩
    intro q hq
    have hlt : q < (run (init threadId) ops).heap.length :=
      (mem_returned_init threadId ops q).mp hq
    refine ⟨_, List.getElem?_eq_getElem hlt, ?_⟩
    rw [hids q _ (List.getElem?_eq_getElem hlt), int32_of_range ((q : Int) + 1) (by omega) (by omega)]
    show (q : Int) + 1 < (newHotkey (run (init threadId) ops) callback key mods).id
    rw [hnew]
    omega

/-- Witness of C1 (amended): after a successful, a failed and another
successful `Register` and an `Unregister`, a fourth `Register` succeeds. -/
theorem register_id_increasing_witness :
    ∃ h : Hotkey,
      (Register (run (init 5) [.register "ctrl+a".toList (some 7) osOk,
          .register "ctrl+b".toList (some 8) osRegisterFails,
          .register "ctrl+b".toList (some 8) osOk, .unregister 0 osOk])
        "win+c".toList (some 9) osOk).state.heap[2]? = some h
        ∧ h.registered = true
        ∧ ∀ q ∈ returned (init 5) [.register "ctrl+a".toList (some 7) osOk,
            .register "ctrl+b".toList (some 8) osRegisterFails,
            .register "ctrl+b".toList (some 8) osOk, .unregister 0 osOk],
            ∃ h' : Hotkey, (run (init 5) [.register "ctrl+a".toList (some 7) osOk,
              .register "ctrl+b".toList (some 8) osRegisterFails,
              .register "ctrl+b".toList (some 8) osOk, .unregister 0 osOk]).heap[q]? = some h'
              ∧ h'.id < h.id :=
  register_id_increasing 5 _ "win+c".toList (some 9) osOk 2 (by decide) (by decide)

/-- Counterexample to C1 as stated: after 2147483647 successful `Register`
calls, the first of which returned the handle at address 0 with id 1, the
next `Register` call succeeds and returns a handle with the id -2147483648:
`lastID + 1` has wrapped around in `int32`. -/
theorem register_id_wraps :
    0 ∈ returned (init 1) (registerTimes 2147483647)
      ∧ idOf (run (init 1) (registerTimes 2147483647)) 0 = some 1
      ∧ (Register (run (init 1) (registerTimes 2147483647)) ['a'] none osOk).result
          = .ok 2147483647
      ∧ idOf (Register (run (init 1) (registerTimes 2147483647)) ['a'] none osOk).state
          2147483647 = some (-2147483648) := by
  have hlen : (run (init 1) (registerTimes 2147483647)).heap.length = 2147483647 := by
    rw [registerTimes_length]; rfl
  obtain ⟨hlast, hids⟩ := IdInvariant_run 1 (registerTimes 2147483647)
  obtain ⟨hstate, hres⟩ := Register_osOk (run (init 1) (registerTimes 2147483647))
  have h0 : 0 < (run (init 1) (registerTimes 2147483647)).heap.length := by
    rw [hlen]; decide
  refine ⟨(mem_returned_init 1 _ 0).mpr h0, ?_, ?_, ?_⟩
  · unfold idOf
    rw [List.getElem?_eq_getElem h0, Option.map_some', hids 0 _ (List.getElem?_eq_getElem h0)]
    rfl
  · rw [hres, hlen]
  · have hnew := idOf_storeEntry (run (init 1) (registerTimes 2147483647))
      (newHotkey (run (init 1) (registerTimes 2147483647)) none 65 0)
    have hid : (newHotkey (run (init 1) (registerTimes 2147483647)) none 65 0).id
        = -2147483648 := by
      simp only [newHotkey]
      rw [hlast, hlen]
      decide
    rw [hlen] at hnew
    rw [hstate, hnew, hid]

/-- C2 (amended): when `parse` has succeeded and the `RegisterHotKey` call
fails (answers 0), `Register` returns an error, the call it issued carried the
id `lastID + 1`, and the state is unchanged, `lastID` included: the id is not
consumed, and the entry the next `Register` call builds bears the same id. -/
theorem register_failure_keeps_id (s : State) (keys : GoString) (callback : Option Nat)
    (os : Env) (mods : Nat) (key : Int)
    (hparse : parse os.unicodeLower os.vkKeyScan keys = .ok (mods, key))
    (hfail : os.registerHotkey = 0) :
    (∃ e, (Register s keys callback os).result = .error e)
      ∧ OsCall.registerHotkey (newHotkey s callback key mods).id mods key
          ∈ (Register s keys callback os).calls
      ∧ (Register s keys callback os).state = s
      ∧ ∀ callback' key' mods',
          (newHotkey (Register s keys callback os).state callback' key' mods').id
            = (newHotkey s callback key mods).id := by
  unfold Register
  rw [hparse]
  by_cases hl : s.isListening = true ∧ s.threadId ≠ 0 <;>
    by_cases hpost : os.postThreadMessage = 0 <;>
    simp [registerFinish, hfail, hl, hpost, newHotkey]

/-- Witness of C2 (amended): `Register("ctrl+a", f7)` at process start with a
failing `RegisterHotKey`. -/
theorem register_failure_keeps_id_witness :
    (∃ e, (Register (init 5) "ctrl+a".toList (some 7) osRegisterFails).result = .error e)
      ∧ OsCall.registerHotkey (newHotkey (init 5) (some 7) 65 2).id 2 65
          ∈ (Register (init 5) "ctrl+a".toList (some 7) osRegisterFails).calls
      ∧ (Register (init 5) "ctrl+a".toList (some 7) osRegisterFails).state = init 5
      ∧ ∀ callback' key' mods',
          (newHotkey (Register (init 5) "ctrl+a".toList (some 7) osRegisterFails).state
              callback' key' mods').id
            = (newHotkey (init 5) (some 7) 65 2).id :=
  register_failure_keeps_id (init 5) "ctrl+a".toList (some 7) osRegisterFails 2 65
    (by decide) (by decide)

/-- Counterexample to C2 as stated: at process start `Register("a", nil)` with
a failing `RegisterHotKey` returns the error "could not register hotkey" after
a call with id 1, and the next call `Register("b", nil)` issues its call with
id 1 again and returns a handle with id 1. -/
theorem register_failure_counterexample :
    (Register (init 1) ['a'] none osRegisterFails).result = .error .couldNotRegister
      ∧ (Register (init 1) ['a'] none osRegisterFails).calls = [.registerHotkey 1 0 65]
      ∧ (Register (Register (init 1) ['a'] none osRegisterFails).state ['b'] none osOk).calls
          = [.registerHotkey 1 0 65]
      ∧ (Register (Register (init 1) ['a'] none osRegisterFails).state ['b'] none osOk).result
          = .ok 0
      ∧ idOf (Register (Register (init 1) ['a'] none osRegisterFails).state ['b'] none
          osOk).state 0 = some 1 := by
  decide

/-- C3: in every state reached from process start by a sequence of `Register`
and `Unregister` calls (and `ListenToHotkeys` calls), whatever the
`user32.dll` calls answer, every key present in `hotkeyMap` is bound to an
entry whose `registered` field is true. -/
theorem hotkeyMap_registered (threadId : Int) (ops : List Op) (k : Int) (p : Nat)
    (hk : mapIndex (run (init threadId) ops).hotkeyMap k = some p) :
    ∃ h : Hotkey, (run (init threadId) ops).heap[p]? = some h ∧ h.registered = true := by
  obtain ⟨h, hh, hreg, _⟩ := MapInvariant_run threadId ops k p hk
  exact ⟨h, hh, hreg⟩

/-- Witness of C3: after two successful `Register` calls and the `Unregister`
of the first handle, key 2 is bound to the second entry. -/
theorem hotkeyMap_registered_witness :
    ∃ h : Hotkey, (run (init 5) [.register "ctrl+a".toList (some 7) osOk,
        .register "ctrl+b".toList (some 8) osOk, .unregister 0 osOk]).heap[1]? = some h
      ∧ h.registered = true :=
  hotkeyMap_registered 5 [.register "ctrl+a".toList (some 7) osOk,
    .register "ctrl+b".toList (some 8) osOk, .unregister 0 osOk] 2 1 (by decide)

/-- C4: after an `Unregister` call on a handle has returned nil, and after any
further calls, an `Unregister` call on the same handle returns nil, issues no
`user32.dll` call, and leaves the state (the handle and the registry map
included) unchanged. -/
theorem unregister_twice (s : State) (hk : Nat) (os : Env) (ops : List Op) (os' : Env)
    (hfirst : (Unregister s hk os).result = .nil) :
    (Unregister (run (Unregister s hk os).state ops) hk os').result = .nil
      ∧ (Unregister (run (Unregister s hk os).state ops) hk os').calls = []
      ∧ (Unregister (run (Unregister s hk os).state ops) hk os').state
          = run (Unregister s hk os).state ops := by
  obtain ⟨h, hh, hreg⟩ :=
    run_preserves (fun s => ∃ h : Hotkey, s.heap[hk]? = some h ∧ h.registered = false)
      (unregistered_step hk) ops _ (Unregister_nil s hk os hfirst)
  generalize run (Unregister s hk os).state ops = s2 at hh ⊢
  unfold Unregister
  simp [hh, hreg]

/-- Witness of C4: the handle of a registered hotkey is unregistered, another
hotkey is registered, and the first handle is unregistered again. -/
theorem unregister_twice_witness :
    (Unregister (run (Unregister oneHotkey 0 osOk).state
        [.register "ctrl+b".toList (some 8) osOk]) 0 osOk).result = .nil
      ∧ (Unregister (run (Unregister oneHotkey 0 osOk).state
        [.register "ctrl+b".toList (some 8) osOk]) 0 osOk).calls = []
      ∧ (Unregister (run (Unregister oneHotkey 0 osOk).state
        [.register "ctrl+b".toList (some 8) osOk]) 0 osOk).state
          = run (Unregister oneHotkey 0 osOk).state [.register "ctrl+b".toList (some 8) osOk] :=
  unregister_twice oneHotkey 0 osOk [.register "ctrl+b".toList (some 8) osOk] osOk
    (by decide)

/-- C5: when the `UnregisterHotKey` call fails (answers 0) for a handle whose
entry has `registered` set, `Unregister` returns the error "could not
unregister hotkey" and leaves the state unchanged: the `registered` field of
the entry stays true, and an entry that is in the registry map under its id is
still there. -/
theorem unregister_failure (s : State) (hk : Nat) (os : Env) (h : Hotkey)
    (hh : s.heap[hk]? = some h) (hreg : h.registered = true)
    (hfail : os.unregisterHotkey = 0) :
    (Unregister s hk os).result = .couldNotUnregister
      ∧ (Unregister s hk os).state = s
      ∧ (∃ h' : Hotkey, (Unregister s hk os).state.heap[hk]? = some h' ∧ h'.registered = true)
      ∧ (mapIndex s.hotkeyMap h.id = some hk →
          mapIndex (Unregister s hk os).state.hotkeyMap h.id = some hk) := by
  have hstate : (Unregister s hk os).state = s := by
    unfold Unregister; simp [hh, hreg, hfail]
  refine ⟨by unfold Unregister; simp [hh, hreg, hfail], hstate, ?_, ?_⟩
  · rw [hstate]; exact ⟨h, hh, hreg⟩
  · rw [hstate]; exact id

/-- Witness of C5: the only registered hotkey, with a failing
`UnregisterHotKey`; the entry is in the map under its id 1 before and after. -/
theorem unregister_failure_witness :
    mapIndex oneHotkey.hotkeyMap 1 = some 0
      ∧ (Unregister oneHotkey 0 osUnregisterFails).result = .couldNotUnregister
      ∧ (Unregister oneHotkey 0 osUnregisterFails).state = oneHotkey
      ∧ mapIndex (Unregister oneHotkey 0 osUnregisterFails).state.hotkeyMap 1 = some 0 :=
  have h := unregister_failure oneHotkey 0 osUnregisterFails
    { id := 1, callback := some 7, keycode := 65, modifiers := 2, registered := true }
    (by decide) (by decide) (by decide)
  ⟨by decide, h.1, h.2.1, h.2.2.2 (by decide)⟩

/-- In `Register` a failed post of the wake message is returned as the error
"error posting message to thread" (lines 215-218), and nothing is written. -/
theorem Register_post_failure (s : State) (keys : GoString) (callback : Option Nat)
    (os : Env) (mods : Nat) (key : Int)
    (hparse : parse os.unicodeLower os.vkKeyScan keys = .ok (mods, key))
    (hlisten : s.isListening = true) (hthread : s.threadId ≠ 0)
    (hpost : os.postThreadMessage = 0) :
    (Register s keys callback os).result = .error .postFailed
      ∧ (Register s keys callback os).state = s := by
  unfold Register
  rw [hparse]
  simp [hlisten, hthread, hpost]

/-- In `Unregister` the answer of the post of the wake message is not read
(line 249): on a registered entry, with `UnregisterHotKey` succeeding, the
call returns nil whatever the post answers. -/
theorem Unregister_post_unread (s : State) (hk : Nat) (os : Env) (h : Hotkey)
    (hh : s.heap[hk]? = some h) (hreg : h.registered = true)
    (hos : os.unregisterHotkey ≠ 0) :
    (Unregister s hk os).result = .nil := by
  unfold Unregister
  simp [hh, hreg, hos]

/-- C9 (the code at the failing input): while listening, `Unregister` of the
only registered hotkey posts the wake message; when that post fails (answers
0) and `UnregisterHotKey` succeeds, `Unregister` returns nil all the same,
whereas `Register` with a failing post returns the error "error posting
message to thread". -/
theorem unregister_ignores_post_failure :
    oneHotkey.isListening = true ∧ oneHotkey.threadId ≠ 0
      ∧ osPostFails.postThreadMessage = 0
      ∧ (Unregister oneHotkey 0 osPostFails).calls
          = [.unregisterHotkey 1, .postThreadMessage 5 WM_USER]
      ∧ (Unregister oneHotkey 0 osPostFails).result = .nil
      ∧ (Register oneHotkey "ctrl+b".toList (some 8) osPostFails).result
          = .error .postFailed := by
  decide

/-! ## Theorems: the listener -/

/-- C10: one turn of the listener loop invokes a callback only when the
message code is `WM_HOTKEY`, its `WPARAM` is not zero, and the registry map
holds under that id an entry that has `registered` set and that non-nil
callback. In particular no callback is invoked (and the turn has no other
outcome than going on to the next message) when the id is absent from the map,
when the entry under the id has `registered` cleared, and when the message is
the wake message `WM_USER`. -/
theorem dispatch_guarded (s : State) (msg : MSG) :
    (∀ cb, dispatch s msg = some cb →
        msg.UINT = WM_HOTKEY ∧ msg.WPARAM ≠ 0
          ∧ ∃ (p : Nat) (h : Hotkey), mapIndex s.hotkeyMap msg.WPARAM = some p
              ∧ s.heap[p]? = some h ∧ h.registered = true ∧ h.callback = some cb)
      ∧ (mapIndex s.hotkeyMap msg.WPARAM = none → dispatch s msg = none)
      ∧ (∀ (p : Nat) (h : Hotkey), mapIndex s.hotkeyMap msg.WPARAM = some p →
          s.heap[p]? = some h → h.registered = false → dispatch s msg = none)
      ∧ (msg.UINT = WM_USER → dispatch s msg = none) := by
  refine ⟨?_, ?_, ?_, ?_⟩
  · intro cb hcb
    unfold dispatch at hcb
    by_cases h1 : msg.UINT = WM_USER
    · simp [h1] at hcb
    by_cases h2 : msg.UINT = WM_HOTKEY
    swap
    · simp [h1, h2] at hcb
    by_cases h3 : msg.WPARAM = 0
    · simp [h3] at hcb
    simp only [h1, h2, h3, if_false, ne_eq, not_true_eq_false] at hcb
    cases hm : mapIndex s.hotkeyMap msg.WPARAM with
    | none => simp [hm] at hcb
    | some p =>
      cases hh : s.heap[p]? with
      | none => simp [hm, hh] at hcb
      | some h =>
        simp only [hm, hh] at hcb
        by_cases hr : h.registered = true ∧ h.callback ≠ none
        · rw [if_pos hr] at hcb
          exact ⟨h2, h3, p, h, rfl, hh, hr.1, hcb⟩
        · rw [if_neg hr] at hcb
          cases hcb
  · intro hm
    unfold dispatch
    simp only [hm]
    split_ifs <;> rfl
  · intro p h hm hh hreg
    unfold dispatch
    simp only [hm, hh, hreg]
    split_ifs <;> simp_all
  · intro hu
    unfold dispatch
    simp [hu]

/-- Witness of C10: a press of the registered hotkey 1 invokes its callback 7;
a press of the absent id 9, a press of hotkey 1 while its unregistration is in
flight, and a wake message invoke nothing. -/
theorem dispatch_guarded_witness :
    (dispatch oneHotkey (message WM_HOTKEY 1) = some 7
        ∧ (message WM_HOTKEY 1).UINT = WM_HOTKEY ∧ (message WM_HOTKEY 1).WPARAM ≠ 0
        ∧ ∃ (p : Nat) (h : Hotkey),
            mapIndex oneHotkey.hotkeyMap (message WM_HOTKEY 1).WPARAM = some p
              ∧ oneHotkey.heap[p]? = some h ∧ h.registered = true ∧ h.callback = some 7)
      ∧ dispatch oneHotkey (message WM_HOTKEY 9) = none
      ∧ dispatch midUnregister (message WM_HOTKEY 1) = none
      ∧ dispatch oneHotkey (message WM_USER 1) = none :=
  ⟨⟨by decide, (dispatch_guarded oneHotkey (message WM_HOTKEY 1)).1 7 (by decide)⟩,
    (dispatch_guarded oneHotkey (message WM_HOTKEY 9)).2.1 (by decide),
    (dispatch_guarded midUnregister (message WM_HOTKEY 1)).2.2.1 0
      { id := 1, callback := some 7, keycode := 65, modifiers := 2, registered := false }
      (by decide) (by decide) (by decide),
    (dispatch_guarded oneHotkey (message WM_USER 1)).2.2.2 (by decide)⟩

end hotkeys
